import Mathlib

/-
  Verification development for find_hordename.py.

  The program has two parts:
  * GGUFMetadataReader: walks the key/value metadata section of a GGUF
    binary blob, extracting string-valued entries until the distinguished
    key "general.name" is found, the declared entry count is exhausted,
    or a read fails.
  * ModelNameMapper: normalizes candidate identifier strings, scores them
    against a catalog of known model names with difflib.SequenceMatcher,
    and returns the best display name above a 0.5 threshold.

  Python strings are modelled as List Char (PyStr), bytes as List Nat,
  floats as exact rationals, and exceptions as Except values.  The file
  object is a cursor (byte list plus position); file.read(n) returns up
  to n bytes and advances, exactly like a Python binary file.
-/

abbrev PyStr := List Char

abbrev Metadata := List (PyStr × PyStr)

/-- Python exception classes that can escape the modelled code. -/
inductive PyErr where
  | structError
  | unicodeError
  | fileNotFound
  deriving DecidableEq, Repr

/-- An open binary file: the full contents plus the current read position. -/
structure Cursor where
  data : List Nat
  pos : Nat
  deriving DecidableEq, Repr

def mkCursor (blob : List Nat) : Cursor := ⟨blob, 0⟩

/-- self.file.read(n): returns at most n bytes from the current position and
advances the position, like a Python binary file read (short at EOF). -/
def rdRead (n : Nat) (c : Cursor) : List Nat × Cursor :=
  ((c.data.drop c.pos).take n, ⟨c.data, min (c.pos + n) c.data.length⟩)

/-- Little-endian value of a byte list. -/
def leVal (bs : List Nat) : Nat := bs.foldr (fun b acc => b + 256 * acc) 0

/-- struct.unpack of a little-endian unsigned 64-bit value: raises
struct.error unless exactly 8 bytes were supplied. -/
def unpackQ (bs : List Nat) : Except PyErr Nat :=
  if bs.length = 8 then .ok (leVal bs) else .error .structError

/-- struct.unpack of a little-endian unsigned 32-bit value: raises
struct.error unless exactly 4 bytes were supplied. -/
def unpackI (bs : List Nat) : Except PyErr Nat :=
  if bs.length = 4 then .ok (leVal bs) else .error .structError

/-- Is this byte a UTF-8 continuation byte (0x80..0xBF)? -/
def utf8Cont (x : Nat) : Bool := 0x80 ≤ x && x < 0xC0

/-- Strict UTF-8 decoding as done by bytes.decode in Python: rejects
continuation-only bytes, overlong forms, surrogates and values past
U+10FFFF.  Returns none where Python raises UnicodeDecodeError. -/
def utf8Decode : List Nat → Option (List Char)
  | [] => some []
  | b :: rest =>
    if b < 0x80 then
      (utf8Decode rest).map (fun cs => Char.ofNat b :: cs)
    else if b < 0xC2 then none
    else if b < 0xE0 then
      match rest with
      | b1 :: r =>
        if utf8Cont b1 then
          (utf8Decode r).map (fun cs => Char.ofNat ((b - 0xC0) * 0x40 + (b1 - 0x80)) :: cs)
        else none
      | [] => none
    else if b < 0xF0 then
      match rest with
      | b1 :: b2 :: r =>
        if utf8Cont b1 && utf8Cont b2 && (decide (0xA0 ≤ b1) || decide (b ≠ 0xE0))
            && (decide (b1 < 0xA0) || decide (b ≠ 0xED)) then
          (utf8Decode r).map
            (fun cs => Char.ofNat ((b - 0xE0) * 0x1000 + (b1 - 0x80) * 0x40 + (b2 - 0x80)) :: cs)
        else none
      | _ => none
    else if b < 0xF5 then
      match rest with
      | b1 :: b2 :: b3 :: r =>
        if utf8Cont b1 && utf8Cont b2 && utf8Cont b3 && (decide (0x90 ≤ b1) || decide (b ≠ 0xF0))
            && (decide (b1 < 0x90) || decide (b ≠ 0xF4)) then
          (utf8Decode r).map
            (fun cs => Char.ofNat ((b - 0xF0) * 0x40000 + (b1 - 0x80) * 0x1000
              + (b2 - 0x80) * 0x40 + (b3 - 0x80)) :: cs)
        else none
      | _ => none
    else none

/-- GGUFMetadataReader._read_string: read an 8-byte little-endian length,
then that many bytes, and decode them as UTF-8.  struct.error if fewer
than 8 length bytes are available; the content read is short at EOF and
only fails if the bytes do not decode. -/
def readString (c : Cursor) : Except PyErr PyStr × Cursor :=
  let r1 := rdRead 8 c
  match unpackQ r1.1 with
  | .error e => (.error e, r1.2)
  | .ok len =>
    let r2 := rdRead len r1.2
    match utf8Decode r2.1 with
    | none => (.error .unicodeError, r2.2)
    | some cs => (.ok cs, r2.2)

/-- GGUFMetadataReader._read_header: skip 4 magic bytes, 4 version bytes
and 8 tensor-count bytes, then unpack the unsigned 64-bit metadata
entry count. -/
def readHeader (c : Cursor) : Except PyErr Nat × Cursor :=
  let r1 := rdRead 4 c
  let r2 := rdRead 4 r1.2
  let r3 := rdRead 8 r2.2
  let r4 := rdRead 8 r3.2
  (unpackQ r4.1, r4.2)

/-- The distinguished metadata key "general.name". -/
def gnKey : PyStr := "general.name".data

/-- Python dict assignment metadata[key] = value on an association list:
replace the value of the first matching key, else append. -/
def dictSet (d : Metadata) (k v : PyStr) : Metadata :=
  match d with
  | [] => [(k, v)]
  | (k', v') :: rest => if k' = k then (k', v) :: rest else (k', v') :: dictSet rest k v

/-- The for-loop of GGUFMetadataReader._read_metadata, n iterations left.
A failing key read is caught by the bare except and the loop continues;
the 4-byte type-tag unpack and the string value read are not inside the
try, so their errors propagate.  Type tag 8 is GGUFValueType.STRING; any
other tag is skipped without consuming its value bytes. -/
def readLoop (n : Nat) (acc : Metadata) (c : Cursor) : Except PyErr Metadata × Cursor :=
  match n with
  | 0 => (.ok acc, c)
  | n + 1 =>
    match readString c with
    | (.error _, c1) => readLoop n acc c1
    | (.ok key, c1) =>
      let rt := rdRead 4 c1
      match unpackI rt.1 with
      | .error e => (.error e, rt.2)
      | .ok vt =>
        if vt = 8 then
          match readString rt.2 with
          | (.error e, c3) => (.error e, c3)
          | (.ok v, c3) =>
            let acc' := dictSet acc key v
            if key = gnKey then (.ok acc', c3) else readLoop n acc' c3
        else readLoop n acc rt.2

/-- GGUFMetadataReader._read_metadata: read the header, then scan the
declared number of entries. -/
def readMetadata (c : Cursor) : Except PyErr Metadata × Cursor :=
  match readHeader c with
  | (.error e, c1) => (.error e, c1)
  | (.ok n, c1) => readLoop n [] c1

/-- GGUFMetadataReader.__init__: open the file, read the metadata, close
the file.  The Bool records whether self.file.close() ran before control
returned: the close call follows the _read_metadata call, so an exception
escaping _read_metadata leaves the file open. -/
def ggufInit (blob : List Nat) : Except PyErr Metadata × Bool :=
  match readMetadata (mkCursor blob) with
  | (.ok m, _) => (.ok m, true)
  | (.error e, _) => (.error e, false)

/-- os.path.basename for POSIX paths: everything after the last slash. -/
def pyBasename (p : PyStr) : PyStr := (p.reverse.takeWhile (fun c => c ≠ '/')).reverse

/-- re.sub of the anchored pattern matching a literal trailing ".gguf"
with the empty string: the only possible match is the 5-character suffix. -/
def stripGgufL (s : PyStr) : PyStr :=
  if s.drop (s.length - 5) = ".gguf".data then s.take (s.length - 5) else s

def isDigitC (c : Char) : Bool := '0' ≤ c && c ≤ '9'

/-- Character class [A-Z_] of the quantization-suffix pattern. -/
def isUpperU (c : Char) : Bool := ('A' ≤ c && c ≤ 'Z') || c = '_'

/-- Nonempty run of [A-Z_] reaching the end of the string. -/
def azTail (l : PyStr) : Bool := !l.isEmpty && l.all isUpperU

/-- After the first digit: more digits, then the optional group
"_[A-Z_]+" running to the end of the string. -/
def digitsMore : PyStr → Bool
  | [] => true
  | c :: rest => if isDigitC c then digitsMore rest else c = '_' && azTail rest

/-- Matches "Q\d+(?:_[A-Z_]+)?" against the entire string. -/
def quantCore : PyStr → Bool
  | 'Q' :: c :: rest => isDigitC c && digitsMore rest
  | _ => false

/-- Matches the full quantization pattern "[-_]?Q\d+(?:_[A-Z_]+)?"
against the entire string (the $ anchor means every regex match runs to
the end of the subject). -/
def quantFull (l : PyStr) : Bool :=
  quantCore l ||
    (match l with
     | c :: rest => (c = '-' || c = '_') && quantCore rest
     | [] => false)

/-- Leftmost position whose suffix matches the quantization pattern,
mirroring the regex engine scanning start positions left to right. -/
def sqAux : PyStr → Option Nat
  | [] => none
  | l@(_ :: rest) => if quantFull l then some 0 else (sqAux rest).map (· + 1)

/-- re.sub of the anchored quantization pattern with the empty string:
delete the leftmost suffix matching it, if any. -/
def stripQuantL (s : PyStr) : PyStr :=
  match sqAux s with
  | some p => s.take p
  | none => s

/-- The caller-side fallback identifier: basename, minus a ".gguf"
extension, minus a trailing quantization suffix. -/
def fallbackId (path : PyStr) : PyStr := stripQuantL (stripGgufL (pyBasename path))

/-- str.lower restricted to ASCII letters.  Non-ASCII characters need no
lowering here because the subsequent filter keeps only [a-z0-9], which
discards every non-ASCII character and its lowercase form alike. -/
def lowerAZ (c : Char) : Char :=
  if 'A' ≤ c ∧ c ≤ 'Z' then Char.ofNat (c.toNat + 32) else c

/-- Character class [a-z0-9] kept by the normalization regex. -/
def keepAN (c : Char) : Bool := ('a' ≤ c && c ≤ 'z') || ('0' ≤ c && c ≤ '9')

/-- ModelNameMapper._normalize: lowercase, then delete every character
outside [a-z0-9]. -/
def normalizeL (s : PyStr) : PyStr := (s.map lowerAZ).filter keepAN

/-- Length of the longest common prefix of two strings. -/
def cpl : PyStr → PyStr → Nat
  | x :: xs, y :: ys => if x = y then cpl xs ys + 1 else 0
  | _, _ => 0

/-- One candidate step of difflib's find_longest_match search: the block
starting at (i, j) has maximal length cpl (a.drop i) (b.drop j); a
strictly longer block replaces the current best, so the scan keeps the
longest block, earliest in a, then earliest in b — the tie-break
documented for SequenceMatcher.find_longest_match. -/
def flmStep (a b : PyStr) (i : Nat) (best : Nat × Nat × Nat) (j : Nat) : Nat × Nat × Nat :=
  if best.2.2 < cpl (a.drop i) (b.drop j) then (i, j, cpl (a.drop i) (b.drop j)) else best

def flmInner (a b : PyStr) (i : Nat) (best : Nat × Nat × Nat) : Nat × Nat × Nat :=
  (List.range b.length).foldl (flmStep a b i) best

/-- difflib.SequenceMatcher.find_longest_match over the whole ranges,
with no junk (isjunk=None; the autojunk popularity heuristic, which only
activates for second sequences of 200+ elements, is outside this model —
every concrete string in this development is far shorter). -/
def flm (a b : PyStr) : Nat × Nat × Nat :=
  (List.range a.length).foldl (fun best i => flmInner a b i best) (0, 0, 0)

/-- Total size of difflib's matching blocks: take the longest match and
recurse on the pieces to its left and to its right.  Structural recursion
on a fuel argument keeps the definition kernel-computable; the guard's
bounds always hold for the block found by flm, and with a nonzero block
length every recursive call strictly decreases the summed length, so the
fuel used by matchTotal below never runs out (matchTotalGo_fuel). -/
def matchTotalGo : Nat → PyStr → PyStr → Nat
  | 0, _, _ => 0
  | fuel + 1, a, b =>
    if 0 < (flm a b).2.2 ∧ (flm a b).1 + (flm a b).2.2 ≤ a.length
        ∧ (flm a b).2.1 + (flm a b).2.2 ≤ b.length then
      (flm a b).2.2 + matchTotalGo fuel (a.take (flm a b).1) (b.take (flm a b).2.1)
        + matchTotalGo fuel (a.drop ((flm a b).1 + (flm a b).2.2))
            (b.drop ((flm a b).2.1 + (flm a b).2.2))
    else 0

/-- Total matched size of difflib's get_matching_blocks. -/
def matchTotal (a b : PyStr) : Nat := matchTotalGo (a.length + b.length + 1) a b

/-- SequenceMatcher.ratio(): 2*M / T where M is the total matched size
and T the sum of the lengths (1.0 when both are empty). -/
def pyRatio (a b : PyStr) : ℚ :=
  if a.length + b.length = 0 then 1
  else mkRat (2 * (matchTotal a b : Int)) (a.length + b.length)

/-- ModelNameMapper._get_similarity: 0 if either string is falsy (empty),
else the SequenceMatcher ratio. -/
def getSim (s1 s2 : PyStr) : ℚ :=
  if s1 = [] ∨ s2 = [] then 0 else pyRatio s1 s2

/-- Does a occur at the start of b? -/
def leads : PyStr → PyStr → Bool
  | [], _ => true
  | _ :: _, [] => false
  | x :: xs, y :: ys => x == y && leads xs ys

/-- Python's substring containment `a in b`: a occurs at the start of
some suffix of b.  The empty string is contained in every string. -/
def pyIn (a b : PyStr) : Bool :=
  match b with
  | [] => leads a []
  | _ :: bs => leads a b || pyIn a bs

/-- Python's built-in max on two numbers: the second argument only when
it is strictly greater. -/
def pyMax (a b : ℚ) : ℚ := if a < b then b else a

/-- The similarity of a candidate against a normalized catalog name,
with the containment boost of get_model_name: if either normalized
string contains the other, the score is raised to at least 0.7 (the
float literal 0.7 is modelled as the exact rational mkRat 7 10). -/
def boosted (nid nn : PyStr) : ℚ :=
  let s := getSim nid nn
  if pyIn nid nn || pyIn nn nid then pyMax s (mkRat 7 10) else s

/-- The "model_name" key looked up in catalog records. -/
def mnKey : PyStr := "model_name".data

/-- One catalog record: the string fields of the JSON object.  dict.get
with a default on an association list. -/
def pyGet (d : List (PyStr × PyStr)) (k df : PyStr) : PyStr := (d.lookup k).getD df

abbrev Catalog := List (PyStr × List (PyStr × PyStr))

/-- The scored (display name, similarity) pairs produced by the nested
loops of get_model_name, in iteration order: catalog entries outermost,
normalized identifiers innermost.  An entry whose display name
normalizes to the empty string is skipped (the continue). -/
def scoredPairs (cat : Catalog) (nids : List PyStr) : List (PyStr × ℚ) :=
  cat.flatMap (fun e =>
    if normalizeL (pyGet e.2 mnKey []) = [] then []
    else nids.map (fun nid => (pyGet e.2 mnKey [], boosted nid (normalizeL (pyGet e.2 mnKey [])))))

/-- One update of the running best: only a strictly greater similarity
replaces the current best match. -/
def bfStep (b : Option PyStr × ℚ) (p : PyStr × ℚ) : Option PyStr × ℚ :=
  if b.2 < p.2 then (some p.1, p.2) else b

/-- The best_match / best_score accumulation of get_model_name, starting
from (None, 0). -/
def bestFold (l : List (PyStr × ℚ)) : Option PyStr × ℚ := l.foldl bfStep (none, 0)

/-- The final selection of get_model_name: the best display name if the
best score reaches 0.5, else the empty string.  best_match is provably
some _ whenever the threshold is met, since the initial score 0 is below
0.5 (see bestFold_none_eq). -/
def selectBest (l : List (PyStr × ℚ)) : PyStr :=
  let b := bestFold l
  if mkRat 1 2 ≤ b.2 then b.1.getD [] else []

/-- The candidate identifiers: the embedded "general.name" value when
present, otherwise the filename-derived fallback. -/
def identifiersOf (md : Metadata) (path : PyStr) : List PyStr :=
  match md.lookup gnKey with
  | some v => [v]
  | none => [fallbackId path]

/-- The body of the try-block of ModelNameMapper.get_model_name.  The
file argument is the content of the file at gguf_path, none when opening
raises (e.g. file not found).  Candidate identifiers are filtered for
truthiness, normalized, scored against every catalog entry, and the best
display name above the threshold is returned. -/
def getBody (file : Option (List Nat)) (path : PyStr) (cat : Catalog) : Except PyErr PyStr :=
  match file with
  | none => .error .fileNotFound
  | some blob =>
    match ggufInit blob with
    | (.error e, _) => .error e
    | (.ok md, _) =>
      .ok (selectBest (scoredPairs cat
        (((identifiersOf md path).filter (fun i => !i.isEmpty)).map normalizeL)))

/-- ModelNameMapper.get_model_name: any exception raised inside the body
is caught and converted to the empty string. -/
def getModelName (file : Option (List Nat)) (path : PyStr) (cat : Catalog) : PyStr :=
  match getBody file path cat with
  | .ok s => s
  | .error _ => []

/-! Theorems.  Each claim Cn of the specification is settled by the
theorem claimN_thm (with witness claimN_wit when it has hypotheses) and,
for refuted claims, the concrete counterexample claimN_cex. -/

/-- Claim C1, counterexample.  The claim says that for every byte source
that runs out of bytes during a key read, _read_metadata terminates and
yields the pairs decoded before the failure.  This blob declares one
entry, its key announces 5 bytes but only the 2 ASCII bytes "ab" remain:
the source runs out of bytes during the key read, yet the truncated key
decodes, and the following 4-byte type-tag unpack raises struct.error
past _read_metadata instead of returning the (empty) accumulated map. -/
theorem claim1_cex :
    (readMetadata (mkCursor (List.replicate 16 0 ++ [1, 0, 0, 0, 0, 0, 0, 0]
      ++ [5, 0, 0, 0, 0, 0, 0, 0] ++ [97, 98]))).1 = Except.error PyErr.structError := rfl

/-- Claim C1, amended.  When the scan reaches a key boundary with fewer
than 8 bytes left, the 8-byte length unpack of the key raises, the bare
except catches it and continues, and every later iteration fails the
same way, so the loop runs to completion and returns exactly the pairs
accumulated so far. -/
theorem claim1_thm (blob : List Nat) (pos n : Nat) (acc : Metadata)
    (h : blob.length < pos + 8) :
    (readLoop n acc ⟨blob, pos⟩).1 = Except.ok acc := by
  induction n generalizing pos with
  | zero => rfl
  | succ n ih =>
    have hne : ((blob.drop pos).take 8).length ≠ 8 := by
      simp only [List.length_take, List.length_drop]; omega
    have hs : readString ⟨blob, pos⟩
        = (.error .structError, ⟨blob, min (pos + 8) blob.length⟩) := by
      simp only [readString, rdRead, unpackQ, if_neg hne]
    simp only [readLoop, hs]
    exact ih _ (by omega)

/-- Witness for claim1_thm at a concrete truncated source. -/
theorem claim1_wit :
    ([] : List Nat).length < 0 + 8 ∧
      (readLoop 2 [(['k'], ['v'])] ⟨[], 0⟩).1 = Except.ok [(['k'], ['v'])] :=
  ⟨by decide, claim1_thm [] 0 2 [(['k'], ['v'])] (by decide)⟩

/-- Claim C8, counterexample.  The claim places the metadata-entry count
at byte offset 24; the skipped prefix is in fact 4+4+8 = 16 bytes, so on
a blob whose bytes 16..24 encode 7 and whose bytes 24..32 encode 9 the
header read returns 7, not the 9 stored at offset 24. -/
theorem claim8_cex :
    (readHeader (mkCursor (List.replicate 16 0 ++ [7, 0, 0, 0, 0, 0, 0, 0]
        ++ [9, 0, 0, 0, 0, 0, 0, 0]))).1 = Except.ok 7
      ∧ leVal ((((List.replicate 16 0 ++ [7, 0, 0, 0, 0, 0, 0, 0]
        ++ [9, 0, 0, 0, 0, 0, 0, 0]) : List Nat).drop 24).take 8) = 9 :=
  ⟨rfl, rfl⟩

/-- Claim C8, amended.  The header read skips a fixed prefix of 16 bytes
(4-byte magic, 4-byte version, 8-byte tensor count, all ignored) and
decodes the unsigned 64-bit metadata-entry count from the 8 bytes at
byte offset 16, leaving the read position at 24. -/
theorem claim8_thm (blob : List Nat) (h : 24 ≤ blob.length) :
    readHeader (mkCursor blob)
      = (Except.ok (leVal ((blob.drop 16).take 8)), ⟨blob, 24⟩) := by
  have m1 : min (0 + 4) blob.length = 4 := by omega
  have m2 : min (4 + 4) blob.length = 8 := by omega
  have m3 : min (8 + 8) blob.length = 16 := by omega
  have m4 : min (16 + 8) blob.length = 24 := by omega
  have h8 : ((blob.drop 16).take 8).length = 8 := by
    simp only [List.length_take, List.length_drop]; omega
  simp only [readHeader, rdRead, mkCursor, m1, m2, m3, m4, unpackQ, h8, if_pos]

/-- Witness for claim8_thm at a concrete 24-byte blob. -/
theorem claim8_wit :
    24 ≤ (List.replicate 24 (0 : Nat)).length ∧
      readHeader (mkCursor (List.replicate 24 0))
        = (Except.ok (leVal (((List.replicate 24 (0 : Nat)).drop 16).take 8)),
            ⟨List.replicate 24 0, 24⟩) :=
  ⟨by decide, claim8_thm _ (by decide)⟩

/-- Claim C9, counterexample.  The claim says the file handle is closed
on every exit path of GGUFMetadataReader construction, including
termination by exception.  On the empty blob the header unpack raises
struct.error, the exception escapes __init__ before self.file.close()
runs, and the handle is left open (closed = false). -/
theorem claim9_cex : ggufInit [] = (Except.error PyErr.structError, false) := rfl

/-- Claim C9, amended.  The file is closed before control returns
whenever _read_metadata completes without an exception (normal
completion and the early stop on "general.name" alike); an exception
escaping _read_metadata skips the close call. -/
theorem claim9_thm (blob : List Nat) (m : Metadata)
    (h : (readMetadata (mkCursor blob)).1 = Except.ok m) :
    ggufInit blob = (Except.ok m, true) := by
  rcases hrm : readMetadata (mkCursor blob) with ⟨r, c⟩
  rw [hrm] at h
  change r = Except.ok m at h
  subst h
  simp only [ggufInit, hrm]

/-- Witness for claim9_thm at a concrete zero-entry blob. -/
theorem claim9_wit :
    (readMetadata (mkCursor (List.replicate 24 0))).1 = Except.ok [] ∧
      ggufInit (List.replicate 24 0) = (Except.ok [], true) :=
  ⟨rfl, claim9_thm _ _ rfl⟩

/-- Claim C3, counterexample.  The claim says the filename
"mistral-7b-instruct.Q4_K_M.gguf" yields exactly "mistral-7b-instruct".
The quantization regex match starts at the Q (the optional [-_] cannot
consume the dot), so the derived fallback keeps the trailing dot. -/
theorem claim3_cex :
    fallbackId ("mistral-7b-instruct.Q4_K_M.gguf".data) = ("mistral-7b-instruct.".data)
      ∧ ("mistral-7b-instruct.".data : PyStr) ≠ ("mistral-7b-instruct".data) :=
  ⟨by decide, by decide⟩

/-- Claim C3, amended.  Fallback derivation strips the ".gguf" extension
and a trailing suffix of shape [-_]?Q<digits>(_[A-Z_]+)?: the group after
the underscore admits only uppercase letters and underscores, so
"-Q4_K_M" is removed but "_Q8_0" is not (its final 0 is a digit), and the
example filename yields "mistral-7b-instruct." with its separator dot. -/
theorem claim3_thm :
    fallbackId ("mistral-7b-instruct.Q4_K_M.gguf".data) = ("mistral-7b-instruct.".data)
      ∧ fallbackId ("model-Q4_K_M.gguf".data) = ("model".data)
      ∧ fallbackId ("model_Q8_0.gguf".data) = ("model_Q8_0".data) :=
  ⟨by decide, by decide, by decide⟩

/-- Claim C4, counterexample.  The claim says score(a, b) = score(b, a)
for every pair.  SequenceMatcher's block choice prefers blocks earliest
in the first sequence, which drops different residual matches on each
side: "tide" vs "diet" scores 1/4 while "diet" vs "tide" scores 1/2. -/
theorem claim4_cex :
    getSim ("tide".data) ("diet".data) = mkRat 1 4
      ∧ getSim ("diet".data) ("tide".data) = mkRat 1 2
      ∧ getSim ("tide".data) ("diet".data) ≠ getSim ("diet".data) ("tide".data) :=
  ⟨by decide, by decide, by decide⟩

/-- Claim C4, amended.  The similarity function is not symmetric in
general; it is symmetric whenever the two strings are equal or either
one is empty. -/
theorem claim4_thm (a b : PyStr) (h : a = b ∨ a = [] ∨ b = []) :
    getSim a b = getSim b a := by
  rcases h with rfl | rfl | rfl
  · rfl
  · simp [getSim]
  · simp [getSim]

/-- Witness for claim4_thm with an empty second string. -/
theorem claim4_wit :
    ((['a'] : PyStr) = [] ∨ (['a'] : PyStr) = [] ∨ ([] : PyStr) = [])
      ∧ getSim ['a'] [] = getSim [] ['a'] :=
  ⟨Or.inr (Or.inr rfl), claim4_thm ['a'] [] (Or.inr (Or.inr rfl))⟩

lemma cpl_self (s : PyStr) : cpl s s = s.length := by
  induction s with
  | nil => rfl
  | cons c cs ih => simp [cpl, ih]

lemma cpl_le (a : PyStr) : ∀ b : PyStr, cpl a b ≤ a.length := by
  induction a with
  | nil => intro b; simp [cpl]
  | cons x xs ih =>
    intro b
    cases b with
    | nil => simp [cpl]
    | cons y ys =>
      simp only [cpl]
      split
      · exact Nat.succ_le_succ (ih ys)
      · simp

lemma cpl_zero (a b : PyStr) (h : ∀ c ∈ a, c ∉ b) : cpl a b = 0 := by
  cases a with
  | nil => simp [cpl]
  | cons x xs =>
    cases b with
    | nil => simp [cpl]
    | cons y ys =>
      have hx : x ≠ y := by
        intro he
        exact h x (List.mem_cons_self x xs) (he ▸ List.mem_cons_self y ys)
      simp [cpl, hx]

lemma foldl_flmStep_fix (a b : PyStr) (i : Nat) (js : List Nat) (best : Nat × Nat × Nat)
    (h : ∀ j, cpl (a.drop i) (b.drop j) ≤ best.2.2) :
    js.foldl (flmStep a b i) best = best := by
  induction js with
  | nil => rfl
  | cons j js ih =>
    have hj : flmStep a b i best j = best := by
      simp only [flmStep, if_neg (Nat.not_lt.mpr (h j))]
    simp only [List.foldl_cons, hj, ih]

lemma flmInner_fix (a b : PyStr) (i : Nat) (best : Nat × Nat × Nat)
    (h : ∀ j, cpl (a.drop i) (b.drop j) ≤ best.2.2) :
    flmInner a b i best = best :=
  foldl_flmStep_fix a b i _ best h

lemma foldl_outer_fix (a b : PyStr) (is : List Nat) (best : Nat × Nat × Nat)
    (h : ∀ i j, cpl (a.drop i) (b.drop j) ≤ best.2.2) :
    is.foldl (fun best i => flmInner a b i best) best = best := by
  induction is with
  | nil => rfl
  | cons i is ih => simp only [List.foldl_cons, flmInner_fix a b i best (h i), ih]

lemma flm_self (s : PyStr) (hs : s ≠ []) : flm s s = (0, 0, s.length) := by
  obtain ⟨n, hn⟩ : ∃ n, s.length = n + 1 := by
    cases s with
    | nil => exact absurd rfl hs
    | cons c cs => exact ⟨cs.length, rfl⟩
  have hL : 0 < s.length := by omega
  have hrange : List.range s.length = 0 :: List.map Nat.succ (List.range n) := by
    rw [hn, List.range_succ_eq_map]
  have hinner : flmInner s s 0 (0, 0, 0) = (0, 0, s.length) := by
    unfold flmInner
    rw [hrange, List.foldl_cons]
    have hstep : flmStep s s 0 (0, 0, 0) 0 = (0, 0, s.length) := by
      simp only [flmStep, List.drop_zero, cpl_self]
      rw [if_pos hL]
    rw [hstep]
    refine foldl_flmStep_fix s s 0 _ _ (fun j => ?_)
    calc cpl (s.drop 0) (s.drop j) ≤ (s.drop 0).length := cpl_le _ _
    _ = s.length := by rw [List.drop_zero]
  unfold flm
  rw [hrange, List.foldl_cons, hinner]
  refine foldl_outer_fix s s _ _ (fun i j => ?_)
  calc cpl (s.drop i) (s.drop j) ≤ (s.drop i).length := cpl_le _ _
  _ ≤ s.length := by simp [List.length_drop]

lemma flm_disjoint (a b : PyStr) (h : ∀ c ∈ a, c ∉ b) : flm a b = (0, 0, 0) := by
  unfold flm
  refine foldl_outer_fix a b _ _ (fun i j => ?_)
  have hz : cpl (a.drop i) (b.drop j) = 0 :=
    cpl_zero _ _ (fun c hc hcb => h c (List.drop_subset i a hc) (List.drop_subset j b hcb))
  omega

lemma matchTotalGo_nil (f : Nat) : matchTotalGo f [] [] = 0 := by
  cases f with
  | zero => rfl
  | succ f => simp [matchTotalGo, flm]

lemma matchTotal_self (s : PyStr) (hs : s ≠ []) : matchTotal s s = s.length := by
  have hL : 0 < s.length := List.length_pos.mpr hs
  unfold matchTotal
  simp only [matchTotalGo, flm_self s hs]
  rw [if_pos ⟨hL, by omega, by omega⟩]
  simp [List.take_zero, Nat.zero_add, List.drop_length, matchTotalGo_nil]

lemma matchTotal_disjoint (a b : PyStr) (h : ∀ c ∈ a, c ∉ b) : matchTotal a b = 0 := by
  unfold matchTotal
  simp only [matchTotalGo, flm_disjoint a b h]
  simp

/-- Claim C5.  A non-empty string scores 1 against itself; anything
scores 0 against the empty string; and strings with no characters in
common (hence no matching blocks) score 0. -/
theorem claim5_thm :
    (∀ s : PyStr, s ≠ [] → getSim s s = 1)
      ∧ (∀ s : PyStr, getSim s [] = 0)
      ∧ (∀ a b : PyStr, (∀ c ∈ a, c ∉ b) → getSim a b = 0) := by
  refine ⟨fun s hs => ?_, fun s => ?_, fun a b h => ?_⟩
  · have hL : 0 < s.length := List.length_pos.mpr hs
    simp only [getSim, pyRatio]
    rw [if_neg (by simp [hs]), if_neg (by omega), matchTotal_self s hs]
    rw [Rat.mkRat_eq_div]
    have hQ : (0 : ℚ) < (s.length : ℚ) := by exact_mod_cast hL
    push_cast
    rw [div_eq_one_iff_eq (by linarith)]
    ring
  · simp [getSim]
  · simp only [getSim]
    by_cases ha : a = []
    · simp [ha]
    by_cases hb : b = []
    · simp [hb]
    rw [if_neg (by tauto)]
    simp only [pyRatio]
    rw [if_neg (fun h0 => ha (List.length_eq_zero.mp (by omega)))]
    rw [matchTotal_disjoint a b h]
    norm_num

/-- Witness for claim5_thm at concrete one-character strings. -/
theorem claim5_wit :
    ((['a'] : PyStr) ≠ [] ∧ getSim ['a'] ['a'] = 1)
      ∧ getSim ['b'] [] = 0
      ∧ ((∀ c ∈ (['a'] : PyStr), c ∉ (['b'] : PyStr)) ∧ getSim ['a'] ['b'] = 0) :=
  ⟨⟨by decide, claim5_thm.1 ['a'] (by decide)⟩, claim5_thm.2.1 ['b'],
    ⟨by decide, claim5_thm.2.2 ['a'] ['b'] (by decide)⟩⟩

lemma pyIn_nil (b : PyStr) : pyIn [] b = true := by
  cases b <;> simp [pyIn, leads]

lemma bfold_mono (l : List (PyStr × ℚ)) : ∀ b : Option PyStr × ℚ, b.2 ≤ (l.foldl bfStep b).2 := by
  induction l with
  | nil => intro b; simp
  | cons p l ih =>
    intro b
    rw [List.foldl_cons]
    refine le_trans ?_ (ih (bfStep b p))
    by_cases h : b.2 < p.2
    · simp only [bfStep, if_pos h]
      exact le_of_lt h
    · simp [bfStep, h]

lemma bfold_stable (l : List (PyStr × ℚ)) : ∀ b, (l.foldl bfStep b).2 = b.2 → l.foldl bfStep b = b := by
  induction l with
  | nil => intro b _; rfl
  | cons p l ih =>
    intro b h
    rw [List.foldl_cons] at h ⊢
    by_cases hlt : b.2 < p.2
    · exfalso
      have h1 : (bfStep b p).2 = p.2 := by simp [bfStep, hlt]
      have h2 := bfold_mono l (bfStep b p)
      rw [h1, h] at h2
      exact absurd hlt (not_lt.mpr h2)
    · have hb : bfStep b p = b := by simp [bfStep, hlt]
      rw [hb] at h ⊢
      exact ih b h

lemma bfold_first (l : List (PyStr × ℚ)) : ∀ b : Option PyStr × ℚ,
    b.2 < (l.foldl bfStep b).2 →
    ∃ p, l.find? (fun q => decide ((l.foldl bfStep b).2 ≤ q.2)) = some p
      ∧ l.foldl bfStep b = (some p.1, p.2) := by
  induction l with
  | nil => intro b h; exact absurd h (lt_irrefl _)
  | cons p l ih =>
    intro b h
    rw [List.foldl_cons] at h ⊢
    by_cases hlt : b.2 < p.2
    · have hb' : bfStep b p = (some p.1, p.2) := by simp [bfStep, hlt]
      rw [hb'] at h ⊢
      rcases eq_or_lt_of_le (bfold_mono l (some p.1, p.2)) with heq | hlt2
      · have hr : l.foldl bfStep (some p.1, p.2) = (some p.1, p.2) := bfold_stable l _ heq.symm
        rw [hr]
        refine ⟨p, ?_, rfl⟩
        rw [List.find?_cons]
        simp
      · obtain ⟨q, hf, hr⟩ := ih (some p.1, p.2) hlt2
        refine ⟨q, ?_, hr⟩
        rw [List.find?_cons]
        have hnot : ¬ ((l.foldl bfStep (some p.1, p.2)).2 ≤ p.2) := not_le.mpr hlt2
        have hd : decide ((List.foldl bfStep (some p.1, p.2) l).2 ≤ p.2) = false := by
          simpa using hnot
        rw [hd]
        exact hf
    · have hb : bfStep b p = b := by simp [bfStep, hlt]
      rw [hb] at h ⊢
      obtain ⟨q, hf, hr⟩ := ih b h
      refine ⟨q, ?_, hr⟩
      rw [List.find?_cons]
      have hple : p.2 ≤ b.2 := not_lt.mp hlt
      have hnot : ¬ ((l.foldl bfStep b).2 ≤ p.2) := not_le.mpr (lt_of_le_of_lt hple h)
      have hd : decide ((List.foldl bfStep b l).2 ≤ p.2) = false := by
        simpa using hnot
      rw [hd]
      exact hf

lemma selectBest_mem (l : List (PyStr × ℚ)) (h : selectBest l ≠ []) :
    ∃ p ∈ l, selectBest l = p.1 := by
  by_cases ht : mkRat 1 2 ≤ (bestFold l).2
  · have h0 : ((none, 0) : Option PyStr × ℚ).2 < (l.foldl bfStep (none, 0)).2 := by
      have h1 : (0 : ℚ) < mkRat 1 2 := by decide
      exact lt_of_lt_of_le h1 ht
    obtain ⟨p, hf, hr⟩ := bfold_first l (none, 0) h0
    refine ⟨p, List.mem_of_find?_eq_some hf, ?_⟩
    simp only [selectBest]
    rw [if_pos ht, show bestFold l = (some p.1, p.2) from hr]
    rfl
  · exfalso
    apply h
    simp only [selectBest]
    rw [if_neg ht]

lemma scoredPairs_mem {cat : Catalog} {nids : List PyStr} {p : PyStr × ℚ}
    (hp : p ∈ scoredPairs cat nids) :
    ∃ e ∈ cat, p.1 = pyGet e.2 mnKey [] ∧ normalizeL (pyGet e.2 mnKey []) ≠ [] := by
  unfold scoredPairs at hp
  rw [List.mem_flatMap] at hp
  obtain ⟨e, he, hin⟩ := hp
  by_cases hnn : normalizeL (pyGet e.2 mnKey []) = []
  · rw [if_pos hnn] at hin
    exact absurd hin (List.not_mem_nil p)
  · rw [if_neg hnn] at hin
    rw [List.mem_map] at hin
    obtain ⟨nid, _, hpe⟩ := hin
    subst hpe
    exact ⟨e, he, rfl, hnn⟩

/-- Claim C2, counterexample.  The claim says a pair whose candidate
normalizes to the empty string has similarity 0 and can never become the
best match.  The truthy candidate "--" normalizes to "", the empty
string is a substring of every normalized catalog name, so the
containment boost lifts the pair to 0.7 and it wins: the file (a
zero-entry blob, so the filename fallback "--" is the candidate) maps to
"Zebra" although nothing resembling it occurs in the name. -/
theorem claim2_cex :
    normalizeL ("--".data) = []
      ∧ getModelName (some (List.replicate 24 0)) ("--.gguf".data)
          [("id1".data, [(mnKey, "Zebra".data)])] = "Zebra".data :=
  ⟨by decide, by decide⟩

/-- Claim C2, amended.  A catalog display name that normalizes to the
empty string is skipped, so such a pair never reaches the scoring and
cannot become best.  But an empty normalized candidate is not skipped:
its base similarity is 0 and the containment boost still fires (the
empty string is contained in everything), scoring the pair 0.7. -/
theorem claim2_thm :
    (∀ nn : PyStr, nn ≠ [] → boosted [] nn = mkRat 7 10)
      ∧ ∀ (cat : Catalog) (nids : List PyStr) (p : PyStr × ℚ),
          p ∈ scoredPairs cat nids → normalizeL p.1 ≠ [] := by
  constructor
  · intro nn _
    have h2 : (pyIn [] nn || pyIn nn []) = true := by rw [pyIn_nil]; rfl
    have h1 : getSim [] nn = 0 := by simp [getSim]
    simp only [boosted, h2, h1, eq_self_iff_true, if_true]
    decide
  · intro cat nids p hp
    obtain ⟨e, he, hp1, hnn⟩ := scoredPairs_mem hp
    rw [hp1]
    exact hnn

/-- Witness for claim2_thm at a one-entry catalog and the empty
normalized candidate. -/
theorem claim2_wit :
    ((['z'] : PyStr) ≠ [] ∧ boosted [] ['z'] = mkRat 7 10)
      ∧ ((['Z'], boosted [] ['z']) ∈ scoredPairs [(['i'], [(mnKey, ['Z'])])] [[]]
          ∧ normalizeL ([ 'Z'] : PyStr) ≠ []) :=
  ⟨⟨by decide, claim2_thm.1 ['z'] (by decide)⟩,
    ⟨by decide, claim2_thm.2 [(['i'], [(mnKey, ['Z'])])] [[]] (['Z'], boosted [] ['z'])
      (by decide)⟩⟩

/-- Claim C6.  get_model_name is total: for every file content, path and
catalog it returns exactly one string, and that string is either the
empty string (every internal failure is caught and degrades to it) or
the successful result of the try-block body. -/
theorem claim6_thm (file : Option (List Nat)) (path : PyStr) (cat : Catalog) :
    getModelName file path cat = []
      ∨ getBody file path cat = Except.ok (getModelName file path cat) := by
  cases hb : getBody file path cat with
  | error e => exact Or.inl (by simp [getModelName, hb])
  | ok s => exact Or.inr (by simp [getModelName, hb])

/-- Claim C7.  Selection applies the inclusive 0.5 threshold to the best
score (the fold that only replaces on strictly greater similarity): a
best score of at least 1/2 returns the display name of the first scored
pair attaining the best score, and a best score below 1/2 returns the
empty string. -/
theorem claim7_thm (l : List (PyStr × ℚ)) :
    (mkRat 1 2 ≤ (bestFold l).2 →
      ∃ p, l.find? (fun q => decide ((bestFold l).2 ≤ q.2)) = some p ∧ selectBest l = p.1)
      ∧ ((bestFold l).2 < mkRat 1 2 → selectBest l = []) := by
  constructor
  · intro h
    have h0 : ((none, 0) : Option PyStr × ℚ).2 < (l.foldl bfStep (none, 0)).2 := by
      have h1 : (0 : ℚ) < mkRat 1 2 := by decide
      exact lt_of_lt_of_le h1 h
    obtain ⟨p, hf, hr⟩ := bfold_first l (none, 0) h0
    refine ⟨p, hf, ?_⟩
    simp only [selectBest]
    rw [if_pos h, show bestFold l = (some p.1, p.2) from hr]
    rfl
  · intro h
    simp only [selectBest]
    rw [if_neg (not_le.mpr h)]

/-- Witness for claim7_thm: an exact tie at 1/2 keeps the first-seen
name, and a best score of 0.499 yields the empty string. -/
theorem claim7_wit :
    selectBest [(['a'], mkRat 1 2), (['b'], mkRat 1 2)] = ['a']
      ∧ selectBest [(['b'], mkRat 499 1000)] = [] := by
  constructor
  · obtain ⟨p, hf, hs⟩ := (claim7_thm [(['a'], mkRat 1 2), (['b'], mkRat 1 2)]).1 (by decide)
    have hev : ([(['a'], mkRat 1 2), (['b'], mkRat 1 2)]).find?
        (fun q => decide ((bestFold [(['a'], mkRat 1 2), (['b'], mkRat 1 2)]).2 ≤ q.2))
        = some (['a'], mkRat 1 2) := by decide
    rw [hev] at hf
    cases hf
    exact hs
  · exact (claim7_thm [(['b'], mkRat 499 1000)]).2 (by decide)

/-- Claim C10.  A non-empty result of get_model_name is, character for
character, the "model_name" field of some catalog entry, and that
entry's normalized display name is non-empty. -/
theorem claim10_thm (file : Option (List Nat)) (path : PyStr) (cat : Catalog)
    (h : getModelName file path cat ≠ []) :
    ∃ e ∈ cat, pyGet e.2 mnKey [] = getModelName file path cat
      ∧ normalizeL (getModelName file path cat) ≠ [] := by
  rcases hb : getBody file path cat with e0 | s
  · exact absurd (by simp [getModelName, hb]) h
  · have hres : getModelName file path cat = s := by simp [getModelName, hb]
    rw [hres] at h ⊢
    rcases file with _ | blob
    · exact absurd hb (by simp [getBody])
    · rcases hg : ggufInit blob with ⟨r, closed⟩
      rcases r with ge | md
      · rw [getBody, hg] at hb
        exact absurd hb (by simp)
      · rw [getBody, hg] at hb
        injection hb with hs
        subst hs
        obtain ⟨p, hpP, hps⟩ := selectBest_mem _ h
        obtain ⟨e, he, hp1, hnn⟩ := scoredPairs_mem hpP
        refine ⟨e, he, ?_, ?_⟩
        · rw [hps, hp1]
        · rw [hps, hp1]
          exact hnn

set_option maxRecDepth 8000 in
/-- Witness for claim10_thm: an end-to-end run (zero-entry blob, so the
filename fallback "mistral" is the candidate) that returns the catalog
display name "mistral". -/
theorem claim10_wit :
    getModelName (some (List.replicate 24 0)) ("mistral.gguf".data)
        [("id1".data, [(mnKey, "mistral".data)])] ≠ []
      ∧ ∃ e ∈ ([("id1".data, [(mnKey, "mistral".data)])] : Catalog),
          pyGet e.2 mnKey [] = getModelName (some (List.replicate 24 0)) ("mistral.gguf".data)
              [("id1".data, [(mnKey, "mistral".data)])]
            ∧ normalizeL (getModelName (some (List.replicate 24 0)) ("mistral.gguf".data)
                [("id1".data, [(mnKey, "mistral".data)])]) ≠ [] :=
  ⟨by decide, claim10_thm _ _ _ (by decide)⟩
